import Mathlib

/-
Verification of the live-reload pipeline of the `serve` static file server.

The development shallowly embeds the four components of the pipeline:
  * the response-rewriting middleware (`withInjectReload` in
    cmd/serve/middleware.go together with `bufferedResponseWriter` in
    cmd/serve/main.go),
  * the debouncer (`debouncer.Call`),
  * the broadcaster (`subscribe` / `unsubscribe` / `notify`),
  * the filesystem watcher loop (directory walk plus event filter) and the
    SSE streaming handler (`formatSSE`, `liveReloadHandler`).

Bodies and header values are modelled as `List Char` (Go strings are byte
strings; all the data handled here is ASCII).  Machine integers are modelled
as `Nat`/`Int`; `strconv.Atoi` overflow is not modelled (the values in scope
are small).
-/

set_option maxHeartbeats 1000000

namespace Serve

/-! ### Buffered response writer (cmd/serve/main.go, bufferedResponseWriter)

`bufferedResponseWriter.Write` calls `bw.buf.Reset()` before `bw.buf.Write(b)`,
so after the wrapped handler returns, the buffer holds exactly the bytes of
the handler's final `Write` call.  `bufferFlush` copies the buffer out. -/

/-- State of the capture buffer after the wrapped handler performed the given
sequence of `Write` calls: each `Write` resets the buffer and stores only its
own argument. -/
def bufAfter (writes : List (List Char)) : List Char :=
  writes.foldl (fun _ w => w) []

/-! ### Go `strings` / `strconv` primitives used by the middleware -/

/-- Go `strings.Contains s pat`: some index of `s` starts with `pat`. -/
def containsSub (s pat : List Char) : Bool :=
  (List.range (s.length + 1)).any fun i => pat.isPrefixOf (s.drop i)

/-- Go `strings.Replace s pat rep 1`: replace the first occurrence of `pat`
in `s` by `rep`; `s` is returned unchanged when `pat` does not occur. -/
def replaceFirst (pat rep : List Char) : List Char → List Char
  | [] => []
  | c :: rest =>
    if pat.isPrefixOf (c :: rest) then rep ++ (c :: rest).drop pat.length
    else c :: replaceFirst pat rep rest

/-- One decimal digit, for `strconv.Atoi`. -/
def digitVal (c : Char) : Option Nat :=
  if '0' ≤ c ∧ c ≤ '9' then some (c.toNat - 48) else none

/-- Digit run of `strconv.Atoi`: all characters must be digits and the run
must be nonempty. -/
def parseDigits (l : List Char) : Option Nat :=
  match l with
  | [] => none
  | _ => l.foldl (fun acc c => acc.bind fun n => (digitVal c).map fun d => n * 10 + d) (some 0)

/-- Go `strconv.Atoi`: optional sign followed by a nonempty digit run.
(Overflow of the 64-bit `int` is not modelled.) -/
def atoi (s : List Char) : Option Int :=
  match s with
  | '+' :: rest => (parseDigits rest).map Int.ofNat
  | '-' :: rest => (parseDigits rest).map fun n => -(Int.ofNat n)
  | _ => (parseDigits s).map Int.ofNat

/-- Go `strconv.Itoa` on a (possibly negative) integer. -/
def itoa (n : Int) : List Char := (toString n).toList

/-! ### The rewriting middleware (cmd/serve/middleware.go, withInjectReload) -/

def htmlContentType : List Char := "text/html".toList

def closeBodyTag : List Char := "</body>".toList

/-- The observable inputs of one `withInjectReload` invocation: the request's
`Range` header (empty list = header absent, as `r.Header.Get` returns `""`),
the `Content-Type` and `Content-Length` response headers set by the wrapped
handler, and the sequence of body chunks the handler passed to `Write`. -/
structure MWInput where
  rangeHeader : List Char
  contentType : List Char
  contentLength : List Char
  writes : List (List Char)
  deriving DecidableEq

/-- The outcome of one `withInjectReload` invocation: either the flushed body
together with the final `Content-Type` and `Content-Length` header values, or
process termination (`os.Exit(1)` on a Content-Length parse failure). -/
inductive MWOut where
  | ok (body contentType contentLength : List Char)
  | procExit
  deriving DecidableEq

/-- `withInjectReload(next, injection)`: the wrapped handler runs against the
buffered writer; if the request had a `Range` header or the content type does
not contain `text/html`, the buffer is flushed unmodified; otherwise the
injection snippet is inserted before the first `</body>`, a nonempty
`Content-Length` is re-parsed and increased by the snippet length (parse
failure terminates the process), and the rewritten body is flushed. -/
def runInjectReload (inj : List Char) (inp : MWInput) : MWOut :=
  let buf := bufAfter inp.writes
  if inp.rangeHeader ≠ [] then .ok buf inp.contentType inp.contentLength
  else if ¬ (containsSub inp.contentType htmlContentType = true) then
    .ok buf inp.contentType inp.contentLength
  else
    let htmlStr := replaceFirst closeBodyTag (inj ++ closeBodyTag) buf
    if inp.contentLength ≠ [] then
      match atoi inp.contentLength with
      | none => .procExit
      | some n => .ok htmlStr inp.contentType (itoa (n + Int.ofNat inj.length))
    else .ok htmlStr inp.contentType inp.contentLength

/-! ### Debouncer (part_000, debouncer.Call)

`Call(key, f)` takes the mutex, stops any pending `time.Timer` for `key`, and
installs a new timer firing `f` after the fixed delay.  We model the timer
table as a discrete-event system: a call is a `(key, time, action)` triple,
calls are processed in the order the mutex serialises them, and a pending
timer whose fire time is at or before the current call's time has already
fired (its `Stop` returned false); otherwise `Stop` cancels it.  Timers left
pending when no further call arrives eventually fire (`debFinal`). -/

structure DebState where
  pending : List (String × Nat × Nat)
  fired : List (String × Nat × Nat)
  deriving DecidableEq

/-- `debouncer.Call` at time `c.2.1` with key `c.1` and action id `c.2.2`:
a pending timer for the same key that was already due has fired; a pending
timer for the same key that was not yet due is stopped and replaced; the new
timer is armed at the call time plus the delay `D`. -/
def debCall (D : Nat) (st : DebState) (c : String × Nat × Nat) : DebState :=
  { pending := (c.1, c.2.1 + D, c.2.2) ::
      st.pending.filter fun e => decide (e.1 ≠ c.1)
  , fired := st.fired ++
      st.pending.filter fun e => decide (e.1 = c.1) && decide (e.2.1 ≤ c.2.1) }

/-- Process a mutex-serialised sequence of `Call`s starting from the empty
timer table. -/
def debRun (D : Nat) (cs : List (String × Nat × Nat)) : DebState :=
  cs.foldl (debCall D) ⟨[], []⟩

/-- All `(key, fireTime, action)` triples that eventually execute: the timers
that fired during the call sequence plus the ones still pending afterwards
(nothing stops them once no further call arrives). -/
def debFinal (D : Nat) (cs : List (String × Nat × Nat)) : List (String × Nat × Nat) :=
  (debRun D cs).fired ++ (debRun D cs).pending

/-- Projection of a debouncer state onto a single key. -/
def restrictDeb (k : String) (st : DebState) : DebState :=
  ⟨st.pending.filter fun e => decide (e.1 = k),
   st.fired.filter fun e => decide (e.1 = k)⟩

/-- The watch loop under process-wide cancellation at time `tc`: the loop's
select returns on `ctx.Done()`, so calls at or after `tc` never happen, but
`time.AfterFunc` timers armed earlier are untouched and still fire
(`debouncer.Call` never ties a timer to the context). -/
def debRunCancelled (D tc : Nat) (cs : List (String × Nat × Nat)) :
    List (String × Nat × Nat) :=
  debFinal D (cs.filter fun c => decide (c.2.1 < tc))

/-! ### Broadcaster (part_001)

Subscriber channels are unbuffered (`make(chan struct{})`), so the `select`
with a `default` branch in `notify` delivers exactly when the subscriber is
blocked receiving; we model a channel as its Go runtime state (capacity,
queued items, whether a receiver is parked) and keep the capacity field so
the non-blocking send is the general language rule.  `unsubscribe` removes
the channel from the registry and then closes it, both under the write lock. -/

structure BChan where
  id : Nat
  cap : Nat
  queued : Nat
  recvW : Bool
  received : Nat
  deriving DecidableEq

def dummyChan : BChan := ⟨0, 0, 0, false, 0⟩

/-- The non-blocking `select { case ch <- struct{}{}: default: }` can deliver
iff a receiver is parked on the channel or a buffer slot is free. -/
def canDeliver (c : BChan) : Bool := c.recvW || decide (c.queued < c.cap)

/-- Effect of a successful non-blocking send: wake the parked receiver
(counting one delivered notification) or enqueue into the buffer. -/
def deliverOne (c : BChan) : BChan :=
  if c.recvW then { c with recvW := false, received := c.received + 1 }
  else { c with queued := c.queued + 1 }

/-- One iteration of `notify`'s loop body for one channel: deliver if
possible, otherwise take the `default` branch and drop the notification. -/
def trySendStep (c : BChan) : BChan :=
  if canDeliver c then deliverOne c else c

structure BState where
  chans : List BChan
  closedIds : List Nat
  nextId : Nat
  deriving DecidableEq

def emptyB : BState := ⟨[], [], 0⟩

inductive BOp where
  | sub
  | unsub (id : Nat)
  | notify
  | ready (id : Nat)
  deriving DecidableEq

/-- `notify`: under the read lock, attempt a non-blocking send to every
channel currently in the registry. -/
def bNotify (st : BState) : BState :=
  { st with chans := st.chans.map trySendStep }

/-- `subscribe`: allocate a fresh unbuffered channel and register it. -/
def bSubscribe (st : BState) : BState :=
  { st with chans := st.chans ++ [⟨st.nextId, 0, 0, false, 0⟩],
            nextId := st.nextId + 1 }

/-- First half of `unsubscribe`: `delete(b.channels, ch)`. -/
def bRemove (id : Nat) (st : BState) : BState :=
  { st with chans := st.chans.filter fun c => decide (c.id ≠ id) }

/-- Second half of `unsubscribe`: `close(ch)`. -/
def bClose (id : Nat) (st : BState) : BState :=
  { st with closedIds := id :: st.closedIds }

/-- `unsubscribe`: remove the channel from the registry, then close it. -/
def bUnsub (id : Nat) (st : BState) : BState := bClose id (bRemove id st)

/-- A streaming handler parks on `<-ch`, making its channel ready to accept
the next notification. -/
def bReady (id : Nat) (st : BState) : BState :=
  { st with chans := st.chans.map fun c =>
      if c.id = id then { c with recvW := true } else c }

def bStep (st : BState) : BOp → BState
  | .sub => bSubscribe st
  | .unsub id => bUnsub id st
  | .notify => bNotify st
  | .ready id => bReady id st

def bRun (ops : List BOp) : BState := ops.foldl bStep emptyB

/-- An operation sequence is valid when every `unsubscribe` targets a channel
currently in the registry (in Go the handler unsubscribes the channel it got
from `subscribe`, exactly once). -/
def validStep (st : BState) : BOp → Bool
  | .unsub id => st.chans.any fun c => decide (c.id = id)
  | _ => true

def validFrom (st : BState) : List BOp → Bool
  | [] => true
  | op :: rest => validStep st op && validFrom (bStep st op) rest

/-- Registry invariant: every registered channel is open, and ids are
allocated below `nextId` so a closed channel's id is never reused. -/
def bInv (st : BState) : Prop :=
  (∀ c ∈ st.chans, c.id ∉ st.closedIds)
  ∧ (∀ c ∈ st.chans, c.id < st.nextId)
  ∧ (∀ x ∈ st.closedIds, x < st.nextId)

/-! ### Filesystem watcher loop (cmd/serve/main.go)

The walk (`fs.WalkDir`) visits every directory, skips a directory (and its
whole subtree, via `fs.SkipDir`) when its name is in `ignoredDirs`, and
registers every other directory with the watcher.  fsnotify watches are
non-recursive: an event on a path is delivered iff the path's immediate
parent directory is registered.  The event loop drops an event whose
operation mask shares no bit with `trackedOp`. -/

inductive DirTree where
  | node (name : String) (sub : List DirTree)

/-- fsnotify operation bit flags. -/
def opCreate : Nat := 1
def opWrite : Nat := 2
def opRemove : Nat := 4
def opRename : Nat := 8
def opChmod : Nat := 16

/-- `trackedOp = fsnotify.Create | fsnotify.Write | fsnotify.Remove |
fsnotify.Rename`. -/
def trackedOp : Nat := opCreate ||| opWrite ||| opRemove ||| opRename

/-- `ignoredDirs = {".git", ".idea", "node_modules"}`. -/
def ignoredDirs : List String := [".git", ".idea", "node_modules"]

/-- The set of directory paths registered by the `fs.WalkDir` callback:
an ignored directory contributes nothing (its subtree is skipped), any other
directory is registered and walked. -/
def watchedDirs (ig : List String) (pre : List String) : DirTree → List (List String)
  | .node n sub =>
    if n ∈ ig then []
    else (pre ++ [n]) ::
      (sub.attach.flatMap fun t => watchedDirs ig (pre ++ [n]) t.1)
termination_by t => sizeOf t
decreasing_by
  simp_wf
  have := List.sizeOf_lt_of_mem t.2
  omega

/-- Whether a raw filesystem event on path `p` with operation mask `op`
reaches `debouncer.Call` in the event loop: fsnotify delivers it (the parent
directory is watched) and the operation mask intersects `trackedOp`. -/
def triggersReload (ig : List String) (root : DirTree) (p : List String) (op : Nat) : Bool :=
  decide (p.dropLast ∈ watchedDirs ig [] root) && decide (op &&& trackedOp ≠ 0)

/-! ### Streaming notification handler (cmd/serve/main.go, formatSSE and
liveReloadHandler) -/

/-- `formatSSE(event, data)`. -/
def formatSSE (event data : String) : String :=
  "event: " ++ event ++ "\ndata: " ++ data ++ "\n\n"

/-- Go `Header().Set`: replace any existing value for the key. -/
def setHeader (k v : String) (hs : List (String × String)) : List (String × String) :=
  (k, v) :: hs.filter fun p => decide (p.1 ≠ k)

def getHeader (k : String) (hs : List (String × String)) : Option String :=
  (hs.find? fun p => decide (p.1 = k)).map fun p => p.2

/-- The header/status phase of `liveReloadHandler`: set the three streaming
headers and write status 200. -/
def liveReloadSetup (hs0 : List (String × String)) : List (String × String) × Nat :=
  (setHeader "Cache-Control" "no-store"
    (setHeader "Content-Type" "text/event-stream"
      (setHeader "Connection" "keep-alive" hs0)), 200)

/-- Inputs the handler's select loop can receive. -/
inductive SSEIn where
  | ctxDone
  | notifyRecv
  deriving DecidableEq

/-- The frames written by `liveReloadHandler`'s loop for a sequence of select
results: each received notification writes one `formatSSE "sourcechange"
"\x7b\x7d"` frame and flushes; context cancellation ends the loop. -/
def liveReloadFrames : List SSEIn → List String
  | [] => []
  | .ctxDone :: _ => []
  | .notifyRecv :: rest => formatSSE "sourcechange" "\x7b\x7d" :: liveReloadFrames rest

/-! ### Helper lemmas -/

theorem bufAfter_eq_getLast (ws : List (List Char)) (h : ws ≠ []) :
    bufAfter ws = ws.getLast h := by
  unfold bufAfter
  induction ws with
  | nil => exact absurd rfl h
  | cons w rest ih =>
    cases rest with
    | nil => simp
    | cons x xs =>
      rw [List.foldl_cons, List.getLast_cons (by simp)]
      have := ih (by simp)
      simpa [List.foldl_cons] using this

theorem replaceFirst_at (pat rep : List Char) (hp : pat ≠ []) :
    ∀ (i : Nat) (s : List Char),
      pat.isPrefixOf (s.drop i) = true →
      (∀ j, j < i → pat.isPrefixOf (s.drop j) = false) →
      replaceFirst pat rep s = s.take i ++ rep ++ s.drop (i + pat.length) := by
  intro i
  induction i with
  | zero =>
    intro s hocc _
    simp only [List.drop_zero] at hocc
    cases s with
    | nil =>
      cases pat with
      | nil => exact absurd rfl hp
      | cons p ps => simp [List.isPrefixOf] at hocc
    | cons c rest =>
      simp [replaceFirst, hocc]
  | succ i ih =>
    intro s hocc hmin
    cases s with
    | nil =>
      cases pat with
      | nil => exact absurd rfl hp
      | cons p ps => simp at hocc
    | cons c rest =>
      have h0 : pat.isPrefixOf (c :: rest) = false := by
        simpa using hmin 0 (Nat.succ_pos i)
      have hocc' : pat.isPrefixOf (rest.drop i) = true := by
        simpa using hocc
      have hmin' : ∀ j, j < i → pat.isPrefixOf (rest.drop j) = false := by
        intro j hj
        simpa using hmin (j + 1) (Nat.succ_lt_succ hj)
      have := ih rest hocc' hmin'
      simp only [replaceFirst, h0]
      rw [if_neg (by simp [h0]), this]
      simp [List.take_succ_cons, List.drop_succ_cons, Nat.succ_add]

theorem isPrefixOf_drop_decomp (pat s : List Char) (i : Nat)
    (h : pat.isPrefixOf (s.drop i) = true) :
    s.drop i = pat ++ s.drop (i + pat.length) := by
  rw [List.isPrefixOf_iff_prefix] at h
  obtain ⟨t, ht⟩ := h
  have hdrop : s.drop (i + pat.length) = t := by
    have : (s.drop i).drop pat.length = t := by
      rw [← ht]; simp
    rw [← this, List.drop_drop]
  rw [hdrop, ht]

theorem occ_index_lt (pat s : List Char) (i : Nat) (hp : pat ≠ [])
    (h : pat.isPrefixOf (s.drop i) = true) : i < s.length := by
  by_contra hge
  push_neg at hge
  rw [List.drop_eq_nil_of_le hge] at h
  cases pat with
  | nil => exact hp rfl
  | cons p ps => simp [List.isPrefixOf] at h

theorem replaceFirst_insert (pat inj s : List Char) (i : Nat) (hp : pat ≠ [])
    (hocc : pat.isPrefixOf (s.drop i) = true)
    (hmin : ∀ j, j < i → pat.isPrefixOf (s.drop j) = false) :
    replaceFirst pat (inj ++ pat) s = s.take i ++ inj ++ s.drop i := by
  rw [replaceFirst_at pat (inj ++ pat) hp i s hocc hmin]
  rw [isPrefixOf_drop_decomp pat s i hocc]
  simp

/-! ### Claims about the rewriting middleware -/

/-- C1: for an HTML response body `b` of length `L` with exactly one closing
body tag (at index `i`), served without a `Range` request header and with an
HTML content type, the flushed body has length `L + K` where `K` is the
injection length, the snippet sits immediately before the closing body tag
(the body becomes `b.take i ++ inj ++ b.drop i`), and a `Content-Length`
header that parsed to `L` is rewritten to `L + K`. -/
theorem inject_rewrite_correct (inj b ct cl : List Char) (i : Nat)
    (hct : containsSub ct htmlContentType = true)
    (hocc : closeBodyTag.isPrefixOf (b.drop i) = true)
    (huniq : ∀ j, j < b.length → closeBodyTag.isPrefixOf (b.drop j) = true → j = i)
    (hcl : cl = [] ∨ atoi cl = some (Int.ofNat b.length)) :
    runInjectReload inj ⟨[], ct, cl, [b]⟩
      = MWOut.ok (b.take i ++ inj ++ b.drop i) ct
          (if cl = [] then [] else itoa (Int.ofNat (b.length + inj.length)))
    ∧ (b.take i ++ inj ++ b.drop i).length = b.length + inj.length := by
  have hp : closeBodyTag ≠ [] := by decide
  have hilt : i < b.length := occ_index_lt closeBodyTag b i hp hocc
  have hmin : ∀ j, j < i → closeBodyTag.isPrefixOf (b.drop j) = false := by
    intro j hj
    by_contra hcon
    have hbt : closeBodyTag.isPrefixOf (b.drop j) = true := by
      simpa using hcon
    exact absurd (huniq j (lt_trans hj hilt) hbt) (Nat.ne_of_lt hj)
  have hbuf : bufAfter [b] = b := rfl
  have hrepl : replaceFirst closeBodyTag (inj ++ closeBodyTag) b
      = b.take i ++ inj ++ b.drop i :=
    replaceFirst_insert closeBodyTag inj b i hp hocc hmin
  have hlen : (b.take i ++ inj ++ b.drop i).length = b.length + inj.length := by
    simp only [List.length_append, List.length_take, List.length_drop]
    omega
  refine ⟨?_, hlen⟩
  rcases hcl with hnil | hsome
  · subst hnil
    simp only [runInjectReload]
    rw [if_neg (by simp), if_neg (by simp [hct]), if_neg (by simp)]
    rw [hbuf, hrepl]
    simp
  · have hclne : cl ≠ [] := by
      intro hcl0
      rw [hcl0] at hsome
      simp [atoi, parseDigits] at hsome
    simp only [runInjectReload]
    rw [if_neg (by simp), if_neg (by simp [hct]), if_pos (by simpa using hclne)]
    rw [hbuf, hrepl, hsome, if_neg hclne]
    congr 2

/-- C1 witness: a concrete HTML body of length 14 with one closing body tag
at index 7, a 3-byte injection, and a declared content length of 14. -/
theorem inject_rewrite_correct_witness :
    runInjectReload "INJ".toList
        ⟨[], "text/html".toList, "14".toList, ["<body>a</body>".toList]⟩
      = MWOut.ok
          ("<body>a</body>".toList.take 7 ++ "INJ".toList ++ "<body>a</body>".toList.drop 7)
          "text/html".toList
          (if "14".toList = ([] : List Char) then []
           else itoa (Int.ofNat ("<body>a</body>".toList.length + "INJ".toList.length)))
    ∧ ("<body>a</body>".toList.take 7 ++ "INJ".toList ++ "<body>a</body>".toList.drop 7).length
        = "<body>a</body>".toList.length + "INJ".toList.length :=
  inject_rewrite_correct "INJ".toList "<body>a</body>".toList "text/html".toList
    "14".toList 7 (by decide) (by decide) (by decide) (Or.inr (by decide))

/-- C5 counterexample: the claim says the flushed body is byte-identical to
the wrapped handler's output for any `Range` request.  A handler that writes
its body in two `Write` calls refutes it: the handler's output is the
concatenation of the chunks, but `bufferedResponseWriter.Write` resets the
buffer on every call, so only the final chunk is flushed. -/
theorem passthrough_cex :
    runInjectReload [] ⟨"r".toList, [], [], [['a'], ['b']]⟩ = MWOut.ok ['b'] [] []
    ∧ (['b'] : List Char) ≠ [['a'], ['b']].flatten := by
  decide

/-- C5 amended: for a request with a `Range` header, or a response whose
content type does not contain `text/html`, `withInjectReload` flushes the
buffered body (the bytes of the handler's final `Write` call) unmodified and
leaves every header unchanged; the flushed body is byte-identical to the
handler's full output whenever the handler wrote its body in a single
`Write` call. -/
theorem passthrough_identity (inj : List Char) (inp : MWInput)
    (h : inp.rangeHeader ≠ [] ∨ containsSub inp.contentType htmlContentType = false) :
    runInjectReload inj inp
      = MWOut.ok (bufAfter inp.writes) inp.contentType inp.contentLength
    ∧ (∀ b, inp.writes = [b] → bufAfter inp.writes = inp.writes.flatten) := by
  constructor
  · by_cases hr : inp.rangeHeader = []
    · have hctf : containsSub inp.contentType htmlContentType = false := by
        rcases h with h | h
        · exact absurd hr h
        · exact h
      simp only [runInjectReload]
      rw [if_neg (by simp [hr]), if_pos (by simp [hctf])]
    · simp only [runInjectReload]
      rw [if_pos hr]
  · intro b hb
    rw [hb]
    simp [bufAfter]

/-- C5 amended witness: a concrete `Range` request with a single-chunk body. -/
theorem passthrough_identity_witness :
    runInjectReload [] ⟨"r".toList, "text/html".toList, "5".toList, [['c']]⟩
      = MWOut.ok (bufAfter [['c']]) "text/html".toList "5".toList
    ∧ bufAfter [['c']] = [['c']].flatten := by
  have h := passthrough_identity []
    ⟨"r".toList, "text/html".toList, "5".toList, [['c']]⟩ (Or.inl (by decide))
  exact ⟨h.1, h.2 ['c'] rfl⟩

/-- C7 counterexample: the claim says a `Content-Length` that fails to parse
yields a server error for that request only, with the process continuing.
On the concrete header value `"abc"` the middleware instead reaches the
`os.Exit(1)` branch, terminating the whole process. -/
theorem contentlength_exit_cex :
    runInjectReload [] ⟨[], "text/html".toList, "abc".toList, [['x']]⟩
      = MWOut.procExit := by
  decide

/-- C7 amended: on an HTML response whose nonempty `Content-Length` header
fails to parse as an integer, the middleware logs the parse error and
terminates the process via `os.Exit(1)`; no per-request server error is
produced. -/
theorem contentlength_parse_exit (inj : List Char) (inp : MWInput)
    (h1 : inp.rangeHeader = [])
    (h2 : containsSub inp.contentType htmlContentType = true)
    (h3 : inp.contentLength ≠ [])
    (h4 : atoi inp.contentLength = none) :
    runInjectReload inj inp = MWOut.procExit := by
  simp only [runInjectReload]
  rw [if_neg (by simp [h1]), if_neg (by simp [h2]), if_pos (by simpa using h3), h4]

/-- C7 amended witness: the header value `"abc"` does not parse. -/
theorem contentlength_parse_exit_witness :
    runInjectReload ['i'] ⟨[], "text/html".toList, "abc".toList, [['x']]⟩
      = MWOut.procExit :=
  contentlength_parse_exit ['i'] ⟨[], "text/html".toList, "abc".toList, [['x']]⟩
    (by decide) (by decide) (by decide) (by decide)

/-- C10: `bufferedResponseWriter.Write` resets the buffer before appending,
so after a handler that wrote two or more chunks, the buffer — and hence the
response `bufferFlush` writes out — holds exactly the bytes of the final
`Write` call; all earlier chunks are discarded. -/
theorem buffered_write_discards (ws : List (List Char)) (h : ws ≠ [])
    (inj rh ct cl : List Char) (hr : rh ≠ []) :
    bufAfter ws = ws.getLast h
    ∧ runInjectReload inj ⟨rh, ct, cl, ws⟩ = MWOut.ok (ws.getLast h) ct cl := by
  have hb := bufAfter_eq_getLast ws h
  refine ⟨hb, ?_⟩
  simp only [runInjectReload]
  rw [if_pos (by simpa using hr), hb]

/-- C10 witness: a handler writing three chunks keeps only the third. -/
theorem buffered_write_discards_witness :
    bufAfter [['a'], ['b'], ['c']] = [['a'], ['b'], ['c']].getLast (by decide)
    ∧ runInjectReload [] ⟨"r".toList, [], [], [['a'], ['b'], ['c']]⟩
        = MWOut.ok ([['a'], ['b'], ['c']].getLast (by decide)) [] [] :=
  buffered_write_discards [['a'], ['b'], ['c']] (by decide) [] "r".toList [] []
    (by decide)

/-! ### Claims about the debouncer -/

theorem filter_ne_then_eq (l : List (String × Nat × Nat)) (k : String) :
    (l.filter fun e => decide (e.1 ≠ k)).filter (fun e => decide (e.1 = k)) = [] := by
  rw [List.filter_filter]
  exact List.filter_eq_nil_iff.mpr fun a _ => by
    by_cases h : a.1 = k <;> simp [h]

theorem filter_eq_then_ne (l : List (String × Nat × Nat)) (k : String) :
    (l.filter fun e => decide (e.1 = k)).filter (fun e => decide (e.1 ≠ k)) = [] := by
  rw [List.filter_filter]
  exact List.filter_eq_nil_iff.mpr fun a _ => by
    by_cases h : a.1 = k <;> simp [h]

theorem filter_due_then_eq (l : List (String × Nat × Nat)) (k : String) (t : Nat) :
    (l.filter fun e => decide (e.1 = k) && decide (e.2.1 ≤ t)).filter
        (fun e => decide (e.1 = k))
      = l.filter fun e => decide (e.1 = k) && decide (e.2.1 ≤ t) := by
  rw [List.filter_filter]
  exact List.filter_congr fun a _ => by
    by_cases h1 : a.1 = k <;> by_cases h2 : a.2.1 ≤ t <;> simp [h1, h2]

theorem filter_eq_then_due (l : List (String × Nat × Nat)) (k : String) (t : Nat) :
    (l.filter fun e => decide (e.1 = k)).filter
        (fun e => decide (e.1 = k) && decide (e.2.1 ≤ t))
      = l.filter fun e => decide (e.1 = k) && decide (e.2.1 ≤ t) := by
  rw [List.filter_filter]
  exact List.filter_congr fun a _ => by
    by_cases h1 : a.1 = k <;> by_cases h2 : a.2.1 ≤ t <;> simp [h1, h2]

theorem filter_ne_then_eq_other (l : List (String × Nat × Nat)) (k m : String)
    (h : m ≠ k) :
    (l.filter fun e => decide (e.1 ≠ m)).filter (fun e => decide (e.1 = k))
      = l.filter fun e => decide (e.1 = k) := by
  rw [List.filter_filter]
  exact List.filter_congr fun a _ => by
    by_cases h1 : a.1 = k
    · simp [h1, Ne.symm h]
    · simp [h1]

theorem filter_due_other_then_eq (l : List (String × Nat × Nat)) (k m : String)
    (t : Nat) (h : m ≠ k) :
    (l.filter fun e => decide (e.1 = m) && decide (e.2.1 ≤ t)).filter
        (fun e => decide (e.1 = k)) = [] := by
  rw [List.filter_filter]
  exact List.filter_eq_nil_iff.mpr fun a _ => by
    by_cases h1 : a.1 = k
    · simp [h1, Ne.symm h]
    · simp [h1]

theorem debCall_restrict (D : Nat) (k : String) (st : DebState)
    (c : String × Nat × Nat) :
    restrictDeb k (debCall D st c)
      = if c.1 = k then debCall D (restrictDeb k st) c else restrictDeb k st := by
  obtain ⟨p, f⟩ := st
  by_cases hck : c.1 = k
  · subst hck
    rw [if_pos rfl]
    simp only [restrictDeb, debCall]
    congr 1
    · rw [List.filter_cons, if_pos (by simp), filter_ne_then_eq, filter_eq_then_ne]
    · rw [List.filter_append, filter_due_then_eq, filter_eq_then_due]
  · rw [if_neg hck]
    simp only [restrictDeb, debCall]
    congr 1
    · rw [List.filter_cons, if_neg (by simpa using hck),
        filter_ne_then_eq_other p k c.1 hck]
    · rw [List.filter_append, filter_due_other_then_eq p k c.1 c.2.1 hck,
        List.append_nil]

theorem debRun_restrict (D : Nat) (k : String) :
    ∀ (cs : List (String × Nat × Nat)) (st : DebState),
      restrictDeb k (cs.foldl (debCall D) st)
        = (cs.filter fun c => decide (c.1 = k)).foldl (debCall D) (restrictDeb k st) := by
  intro cs
  induction cs with
  | nil => intro st; rfl
  | cons c rest ih =>
    intro st
    by_cases hck : c.1 = k
    · simp only [List.foldl_cons, List.filter_cons, decide_eq_true_eq, if_pos hck,
        ih (debCall D st c), debCall_restrict, hck, if_true]
    · simp only [List.foldl_cons, List.filter_cons, decide_eq_true_eq, if_neg hck,
        ih (debCall D st c), debCall_restrict, hck, if_false]

theorem debFinal_restrict (D : Nat) (k : String)
    (ds : List (String × Nat × Nat)) :
    (debFinal D ds).filter (fun e => decide (e.1 = k))
      = debFinal D (ds.filter fun c => decide (c.1 = k)) := by
  unfold debFinal debRun
  rw [List.filter_append]
  have h := debRun_restrict D k ds ⟨[], []⟩
  have h0 : restrictDeb k ⟨[], []⟩ = (⟨[], []⟩ : DebState) := rfl
  rw [h0] at h
  rw [← h]
  rfl

theorem debRun_const (D : Nat) (k : String) :
    ∀ (cs : List (String × Nat × Nat)) (t a : Nat) (f : List (String × Nat × Nat)),
      (∀ c ∈ cs, c.1 = k) →
      List.Chain' (fun x y => y.2.1 < x.2.1 + D) ((k, t, a) :: cs) →
      cs.foldl (debCall D) ⟨[(k, t + D, a)], f⟩
        = ⟨[(k, (cs.getLastD (k, t, a)).2.1 + D, (cs.getLastD (k, t, a)).2.2)], f⟩ := by
  intro cs
  induction cs with
  | nil =>
    intro t a f _ _
    simp [List.getLastD]
  | cons c rest ih =>
    intro t a f hkey hchain
    obtain ⟨c1, t1, a1⟩ := c
    have hk1 : c1 = k := hkey (c1, t1, a1) (List.mem_cons_self _ _)
    subst hk1
    rw [List.chain'_cons] at hchain
    have hlt : t1 < t + D := hchain.1
    have hnle : ¬ (t + D ≤ t1) := by omega
    have hstep : debCall D ⟨[(c1, t + D, a)], f⟩ (c1, t1, a1)
        = ⟨[(c1, t1 + D, a1)], f⟩ := by
      simp [debCall, List.filter_cons, hnle]
    rw [List.foldl_cons, hstep,
      ih t1 a1 f (fun c hc => hkey c (List.mem_cons_of_mem _ hc)) hchain.2]
    rw [List.getLastD_cons]

theorem debFinal_const_key (D : Nat) (k : String)
    (cs : List (String × Nat × Nat)) (hne : cs ≠ [])
    (hkey : ∀ c ∈ cs, c.1 = k)
    (hgap : List.Chain' (fun x y => y.2.1 < x.2.1 + D) cs) :
    debFinal D cs = [(k, (cs.getLast hne).2.1 + D, (cs.getLast hne).2.2)] := by
  cases cs with
  | nil => exact absurd rfl hne
  | cons c0 rest =>
    obtain ⟨c1, t0, a0⟩ := c0
    have hk0 : c1 = k := hkey (c1, t0, a0) (List.mem_cons_self _ _)
    subst hk0
    have hstep0 : debCall D ⟨[], []⟩ (c1, t0, a0) = ⟨[(c1, t0 + D, a0)], []⟩ := by
      simp [debCall]
    rw [debFinal, debRun, List.foldl_cons, hstep0,
      debRun_const D c1 rest t0 a0 []
        (fun c hc => hkey c (List.mem_cons_of_mem _ hc)) hgap]
    rw [List.getLast_eq_getLastD]
    rfl

/-- C2: for a nonempty mutex-serialised sequence of `debouncer.Call`s with the
same key, each spaced strictly less than the delay `D` after the previous
one, exactly the last call's action executes, once, at the last call time
plus `D` (so at least `D` after the last call); and the executions recorded
for key `k` in an arbitrary call sequence are exactly the executions of the
subsequence of calls with key `k` — calls with distinct keys never cancel
each other. -/
theorem debounce_coalesce_independent (D : Nat) (k : String)
    (cs ds : List (String × Nat × Nat)) (hne : cs ≠ [])
    (hkey : ∀ c ∈ cs, c.1 = k)
    (hgap : List.Chain' (fun x y => y.2.1 < x.2.1 + D) cs) :
    debFinal D cs = [(k, (cs.getLast hne).2.1 + D, (cs.getLast hne).2.2)]
    ∧ (debFinal D ds).filter (fun e => decide (e.1 = k))
        = debFinal D (ds.filter fun c => decide (c.1 = k)) :=
  ⟨debFinal_const_key D k cs hne hkey hgap, debFinal_restrict D k ds⟩

/-- C2 witness: a two-call burst with key `"k"` spaced 5 < D = 10 apart
coalesces to the second action firing at time 15; interleaving a `"j"` call
does not disturb key `"k"`. -/
theorem debounce_coalesce_independent_witness :
    debFinal 10 [("k", 0, 1), ("k", 5, 2)] = [("k", 15, 2)]
    ∧ (debFinal 10 [("k", 0, 1), ("j", 3, 9), ("k", 5, 2)]).filter
          (fun e => decide (e.1 = "k"))
        = debFinal 10
            ([("k", 0, 1), ("j", 3, 9), ("k", 5, 2)].filter
              fun c => decide (c.1 = "k")) := by
  have h := debounce_coalesce_independent 10 "k"
    [("k", 0, 1), ("k", 5, 2)] [("k", 0, 1), ("j", 3, 9), ("k", 5, 2)]
    (by decide) (by decide)
    (by norm_num [List.chain'_cons, List.chain'_singleton])
  exact h

/-- C8 counterexample: the claim says a pending debounced action never runs
once the process-wide cancellation has fired.  With delay `D = 100`, a single
`Call("reload", a)` at time 0 and cancellation at time 50 (< 0 + D), the
pending `time.AfterFunc` timer is not tied to the context and still fires at
time 100, after the cancellation. -/
theorem debounce_cancel_cex :
    debRunCancelled 100 50 [("reload", 0, 7)] ≠ []
    ∧ debRunCancelled 100 50 [("reload", 0, 7)] = [("reload", 100, 7)] := by
  decide

/-- C8 amended: process-wide cancellation only stops the watch loop, so no
`debouncer.Call` occurs at or after the cancellation time `tc`; an
already-pending debounced action is not cancelled and still fires `D` after
the last pre-cancellation call — even when cancellation fires before `D` has
elapsed.  Only full process termination prevents the pending action. -/
theorem debounce_cancel_still_fires (D tc : Nat) (k : String)
    (cs : List (String × Nat × Nat)) (hne : cs ≠ [])
    (hkey : ∀ c ∈ cs, c.1 = k)
    (hgap : List.Chain' (fun x y => y.2.1 < x.2.1 + D) cs)
    (hbefore : ∀ c ∈ cs, c.2.1 < tc)
    (hcancel : tc ≤ (cs.getLast hne).2.1 + D) :
    debRunCancelled D tc cs
      = [(k, (cs.getLast hne).2.1 + D, (cs.getLast hne).2.2)] := by
  have hfilter : cs.filter (fun c => decide (c.2.1 < tc)) = cs :=
    List.filter_eq_self.mpr fun c hc => by simpa using hbefore c hc
  rw [debRunCancelled, hfilter]
  exact debFinal_const_key D k cs hne hkey hgap

/-- C8 amended witness: two calls at times 0 and 5, cancellation at time 12,
before the pending fire time 15; the second call's action still fires at 15. -/
theorem debounce_cancel_still_fires_witness :
    debRunCancelled 10 12 [("k", 0, 1), ("k", 5, 2)] = [("k", 15, 2)] := by
  have h := debounce_cancel_still_fires 10 12 "k" [("k", 0, 1), ("k", 5, 2)]
    (by decide) (by decide)
    (by norm_num [List.chain'_cons, List.chain'_singleton])
    (by decide) (by decide)
  exact h

/-! ### Claims about the broadcaster -/

theorem getD_map_trySend (l : List BChan) (i : Nat) (h : i < l.length) :
    (l.map trySendStep).getD i dummyChan = trySendStep (l.getD i dummyChan) := by
  induction l generalizing i with
  | nil => simp at h
  | cons x xs ih =>
    cases i with
    | zero => simp [List.getD_cons_zero]
    | succ n =>
      have hn : n < xs.length := by simpa using h
      simpa [List.getD_cons_succ] using ih n hn

theorem bRun_replicate_sub_length (n : Nat) :
    (bRun (List.replicate n BOp.sub)).chans.length = n := by
  have H : ∀ (m : Nat) (st : BState),
      ((List.replicate m BOp.sub).foldl bStep st).chans.length
        = st.chans.length + m := by
    intro m
    induction m with
    | zero => intro st; simp
    | succ q ih =>
      intro st
      rw [List.replicate_succ, List.foldl_cons, ih]
      simp [bStep, bSubscribe]
      omega
  simpa [bRun, emptyB] using H n emptyB

/-- C3: after `N` calls to `subscribe()` the registry holds `N` channels, and
one `notify()` visits every registered channel, delivering one notification
to each channel whose non-blocking send can complete (a receiver is parked or
a buffer slot is free — for the unbuffered channels `subscribe` creates, a
parked receiver) and leaving every other channel unchanged (the notification
is dropped via the `default` branch); `notify` is a total function of the
state, never waiting on any subscriber. -/
theorem broadcaster_fanout (st : BState) (n i : Nat) (h : i < st.chans.length) :
    (bNotify st).chans.length = st.chans.length
    ∧ (bNotify st).chans.getD i dummyChan
        = (if canDeliver (st.chans.getD i dummyChan)
           then deliverOne (st.chans.getD i dummyChan)
           else st.chans.getD i dummyChan)
    ∧ (bRun (List.replicate n BOp.sub)).chans.length = n := by
  refine ⟨by simp [bNotify], ?_, bRun_replicate_sub_length n⟩
  have hm : (bNotify st).chans = st.chans.map trySendStep := rfl
  rw [hm, getD_map_trySend st.chans i h]
  rfl

/-- C3 witness: two subscribed channels, one with a parked receiver (it gets
the notification) and one without (it is skipped). -/
theorem broadcaster_fanout_witness :
    (bNotify ⟨[⟨0, 0, 0, true, 0⟩, ⟨1, 0, 0, false, 0⟩], [], 2⟩).chans.length
        = (⟨[⟨0, 0, 0, true, 0⟩, ⟨1, 0, 0, false, 0⟩], [], 2⟩ : BState).chans.length
    ∧ (bNotify ⟨[⟨0, 0, 0, true, 0⟩, ⟨1, 0, 0, false, 0⟩], [], 2⟩).chans.getD 0 dummyChan
        = (if canDeliver
              ((⟨[⟨0, 0, 0, true, 0⟩, ⟨1, 0, 0, false, 0⟩], [], 2⟩ : BState).chans.getD 0 dummyChan)
           then deliverOne
              ((⟨[⟨0, 0, 0, true, 0⟩, ⟨1, 0, 0, false, 0⟩], [], 2⟩ : BState).chans.getD 0 dummyChan)
           else (⟨[⟨0, 0, 0, true, 0⟩, ⟨1, 0, 0, false, 0⟩], [], 2⟩ : BState).chans.getD 0 dummyChan)
    ∧ (bRun (List.replicate 2 BOp.sub)).chans.length = 2 :=
  broadcaster_fanout ⟨[⟨0, 0, 0, true, 0⟩, ⟨1, 0, 0, false, 0⟩], [], 2⟩ 2 0
    (by decide)

theorem trySendStep_id_eq (c : BChan) : (trySendStep c).id = c.id := by
  unfold trySendStep deliverOne
  by_cases h1 : canDeliver c
  · rw [if_pos h1]
    by_cases h2 : c.recvW <;> simp [h2]
  · rw [if_neg h1]

theorem bReady_id_eq (id : Nat) (c : BChan) :
    (if c.id = id then { c with recvW := true } else c).id = c.id := by
  by_cases h : c.id = id <;> simp [h]

theorem bStep_inv (st : BState) (op : BOp) (hv : validStep st op = true)
    (h : bInv st) : bInv (bStep st op) := by
  obtain ⟨h1, h2, h3⟩ := h
  cases op with
  | sub =>
    refine ⟨?_, ?_, ?_⟩
    · intro c hc
      rcases List.mem_append.mp hc with hc | hc
      · exact h1 c hc
      · have hcv : c = ⟨st.nextId, 0, 0, false, 0⟩ := by simpa using hc
        subst hcv
        intro hmem
        exact absurd (h3 _ hmem) (lt_irrefl _)
    · intro c hc
      rcases List.mem_append.mp hc with hc | hc
      · exact Nat.lt_succ_of_lt (h2 c hc)
      · have hcv : c = ⟨st.nextId, 0, 0, false, 0⟩ := by simpa using hc
        subst hcv
        exact Nat.lt_succ_self _
    · intro x hx
      exact Nat.lt_succ_of_lt (h3 x hx)
  | unsub id =>
    have hid : id < st.nextId := by
      rw [validStep, List.any_eq_true] at hv
      obtain ⟨c, hc, hcid⟩ := hv
      have hlt := h2 c hc
      have : c.id = id := by simpa using hcid
      omega
    refine ⟨?_, ?_, ?_⟩
    · intro c hc
      have hcmem := List.mem_filter.mp hc
      have hne : c.id ≠ id := by simpa using hcmem.2
      intro hmem
      rcases List.mem_cons.mp hmem with hmem | hmem
      · exact hne hmem
      · exact h1 c hcmem.1 hmem
    · intro c hc
      exact h2 c (List.mem_filter.mp hc).1
    · intro x hx
      rcases List.mem_cons.mp hx with hx | hx
      · subst hx; exact hid
      · exact h3 x hx
  | notify =>
    refine ⟨?_, ?_, h3⟩
    · intro c hc
      obtain ⟨c0, hc0, rfl⟩ := List.mem_map.mp hc
      rw [trySendStep_id_eq]
      exact h1 c0 hc0
    · intro c hc
      obtain ⟨c0, hc0, rfl⟩ := List.mem_map.mp hc
      rw [trySendStep_id_eq]
      exact h2 c0 hc0
  | ready rid =>
    refine ⟨?_, ?_, h3⟩
    · intro c hc
      obtain ⟨c0, hc0, rfl⟩ := List.mem_map.mp hc
      rw [bReady_id_eq]
      exact h1 c0 hc0
    · intro c hc
      obtain ⟨c0, hc0, rfl⟩ := List.mem_map.mp hc
      rw [bReady_id_eq]
      exact h2 c0 hc0

theorem bStep_closed_mono (st : BState) (op : BOp) (x : Nat)
    (h : x ∈ st.closedIds) : x ∈ (bStep st op).closedIds := by
  cases op with
  | sub => simpa [bStep, bSubscribe] using h
  | unsub id => exact List.mem_cons_of_mem id h
  | notify => simpa [bStep, bNotify] using h
  | ready rid => simpa [bStep, bReady] using h

theorem bFold_inv_closed (ops : List BOp) :
    ∀ (st : BState), validFrom st ops = true → bInv st →
      bInv (ops.foldl bStep st)
      ∧ ∀ x ∈ st.closedIds, x ∈ (ops.foldl bStep st).closedIds := by
  induction ops with
  | nil => intro st _ h; exact ⟨h, fun _ hx => hx⟩
  | cons op rest ih =>
    intro st hv h
    rw [validFrom, Bool.and_eq_true] at hv
    have hrec := ih (bStep st op) hv.2 (bStep_inv st op hv.1 h)
    refine ⟨by simpa [List.foldl_cons] using hrec.1, fun x hx => ?_⟩
    simpa [List.foldl_cons] using hrec.2 x (bStep_closed_mono st op x hx)

theorem emptyB_inv : bInv emptyB :=
  ⟨by simp [emptyB], by simp [emptyB], by simp [emptyB]⟩

theorem validFrom_append (l1 l2 : List BOp) :
    ∀ st, validFrom st (l1 ++ l2)
      = (validFrom st l1 && validFrom (l1.foldl bStep st) l2) := by
  induction l1 with
  | nil => intro st; simp [validFrom]
  | cons op rest ih =>
    intro st
    simp [validFrom, ih (bStep st op), Bool.and_assoc]

/-- C6: for any valid operation sequence (every `unsubscribe` targets a
registered channel), no reachable registry ever contains a closed channel;
after `unsubscribe(ch)` the channel is closed, it is absent from the registry
at every later point — so no subsequent `notify()` attempts delivery to it —
and already at the intermediate state between `delete` and `close` the
registry is free of it and still contains no closed channel. -/
theorem broadcaster_unsub_safety (ops1 ops2 : List BOp) (id : Nat)
    (hv : validFrom emptyB (ops1 ++ BOp.unsub id :: ops2) = true) :
    (∀ c ∈ (bRun (ops1 ++ BOp.unsub id :: ops2)).chans,
        c.id ∉ (bRun (ops1 ++ BOp.unsub id :: ops2)).closedIds)
    ∧ id ∈ (bRun (ops1 ++ BOp.unsub id :: ops2)).closedIds
    ∧ (∀ pre suf, ops2 = pre ++ suf →
        ∀ c ∈ (bRun (ops1 ++ BOp.unsub id :: pre)).chans, c.id ≠ id)
    ∧ (∀ c ∈ (bRemove id (bRun ops1)).chans,
        c.id ∉ (bRemove id (bRun ops1)).closedIds) := by
  rw [validFrom_append, Bool.and_eq_true] at hv
  obtain ⟨hv1, hvrest⟩ := hv
  rw [validFrom, Bool.and_eq_true] at hvrest
  obtain ⟨hvstep, hv2⟩ := hvrest
  have inv1 : bInv (bRun ops1) :=
    (bFold_inv_closed ops1 emptyB hv1 emptyB_inv).1
  have inv2 : bInv (bStep (bRun ops1) (BOp.unsub id)) :=
    bStep_inv (bRun ops1) (BOp.unsub id) hvstep inv1
  have hclosed : id ∈ (bStep (bRun ops1) (BOp.unsub id)).closedIds :=
    List.mem_cons_self id _
  have hrunfull : bRun (ops1 ++ BOp.unsub id :: ops2)
      = ops2.foldl bStep (bStep (bRun ops1) (BOp.unsub id)) := by
    simp [bRun, List.foldl_append]
  have hfull := bFold_inv_closed ops2 (bStep (bRun ops1) (BOp.unsub id)) hv2 inv2
  refine ⟨?_, ?_, ?_, ?_⟩
  · rw [hrunfull]
    exact hfull.1.1
  · rw [hrunfull]
    exact hfull.2 id hclosed
  · intro pre suf hsplit c hc
    have hvpre : validFrom (bStep (bRun ops1) (BOp.unsub id)) pre = true := by
      rw [hsplit, validFrom_append, Bool.and_eq_true] at hv2
      exact hv2.1
    have hrunpre : bRun (ops1 ++ BOp.unsub id :: pre)
        = pre.foldl bStep (bStep (bRun ops1) (BOp.unsub id)) := by
      simp [bRun, List.foldl_append]
    rw [hrunpre] at hc
    have hp := bFold_inv_closed pre (bStep (bRun ops1) (BOp.unsub id)) hvpre inv2
    intro hcid
    exact hp.1.1 c hc (hcid ▸ hp.2 id hclosed)
  · intro c hc
    have hcmem := List.mem_filter.mp hc
    exact inv1.1 c hcmem.1

/-- C6 witness: subscribe channel 0, unsubscribe it, subscribe channel 1 and
notify; channel 0 is closed and the registry never targets it again. -/
theorem broadcaster_unsub_safety_witness :
    0 ∈ (bRun ([BOp.sub] ++ BOp.unsub 0 :: [BOp.sub, BOp.notify])).closedIds
    ∧ (⟨1, 0, 0, false, 0⟩ : BChan).id ≠ 0 := by
  have h := broadcaster_unsub_safety [BOp.sub] [BOp.sub, BOp.notify] 0 (by decide)
  refine ⟨h.2.1, ?_⟩
  exact h.2.2.1 [BOp.sub, BOp.notify] [] (by simp) ⟨1, 0, 0, false, 0⟩ (by decide)

/-! ### Claims about the watcher loop -/

theorem watchedDirs_mem_no_ignored (ig : List String) :
    ∀ (m : Nat) (t : DirTree), sizeOf t ≤ m →
      ∀ (pre p : List String), p ∈ watchedDirs ig pre t →
        ∀ s, s ∈ p → s ∈ ig → s ∈ pre := by
  intro m
  induction m with
  | zero =>
    intro t ht
    cases t with
    | node n sub =>
      simp at ht
  | succ m ih =>
    intro t ht pre p hp s hs hsig
    cases t with
    | node n sub =>
      rw [watchedDirs] at hp
      by_cases hn : n ∈ ig
      · rw [if_pos hn] at hp
        simp at hp
      · rw [if_neg hn] at hp
        rcases List.mem_cons.mp hp with hp | hp
        · subst hp
          rcases List.mem_append.mp hs with h | h
          · exact h
          · have : s = n := by simpa using h
            exact absurd (this ▸ hsig) hn
        · rw [List.mem_flatMap] at hp
          obtain ⟨⟨t1, ht1⟩, _, hpt⟩ := hp
          have hsz : sizeOf t1 ≤ m := by
            have hlt := List.sizeOf_lt_of_mem ht1
            have hszn : sizeOf (DirTree.node n sub) = 1 + sizeOf n + sizeOf sub := by
              simp
            omega
          have hres := ih t1 hsz (pre ++ [n]) p hpt s hs hsig
          rcases List.mem_append.mp hres with h | h
          · exact h
          · have : s = n := by simpa using h
            exact absurd (this ▸ hsig) hn

theorem watchedDirs_no_ignored (ig : List String) (t : DirTree) (p : List String)
    (hp : p ∈ watchedDirs ig [] t) : ∀ s ∈ p, s ∉ ig := by
  intro s hs hsig
  have h := watchedDirs_mem_no_ignored ig (sizeOf t) t (le_refl _) [] p hp s hs hsig
  simp at h

/-- C4: a filesystem event whose path lies strictly under a directory whose
name is in the ignore set never reaches `debouncer.Call` (its parent
directory was never registered by the walk, which skips ignored subtrees),
and an event whose operation mask shares no bit with the tracked set
`{create, write, remove, rename}` never reaches `debouncer.Call` (the event
loop `continue`s on it). -/
theorem watch_filtering (root : DirTree) (p : List String) (op : Nat) :
    ((∃ d ∈ p.dropLast, d ∈ ignoredDirs) →
        triggersReload ignoredDirs root p op = false)
    ∧ (op &&& trackedOp = 0 → triggersReload ignoredDirs root p op = false) := by
  constructor
  · rintro ⟨d, hd, hdig⟩
    unfold triggersReload
    have hnm : ¬ (p.dropLast ∈ watchedDirs ignoredDirs [] root) := fun hmem =>
      watchedDirs_no_ignored ignoredDirs root p.dropLast hmem d hd hdig
    simp [hnm]
  · intro hop
    unfold triggersReload
    simp [hop]

/-- C4 witness: under a root with subdirectories `.git` and `sub`, a write
event under `.git` never triggers, and a chmod event (mask 16) under `sub`
never triggers. -/
theorem watch_filtering_witness :
    triggersReload ignoredDirs
        (DirTree.node "root" [DirTree.node ".git" [], DirTree.node "sub" []])
        ["root", ".git", "x"] 2 = false
    ∧ triggersReload ignoredDirs
        (DirTree.node "root" [DirTree.node ".git" [], DirTree.node "sub" []])
        ["root", "sub", "x"] 16 = false := by
  constructor
  · exact (watch_filtering
      (DirTree.node "root" [DirTree.node ".git" [], DirTree.node "sub" []])
      ["root", ".git", "x"] 2).1 ⟨".git", by decide, by decide⟩
  · exact (watch_filtering
      (DirTree.node "root" [DirTree.node ".git" [], DirTree.node "sub" []])
      ["root", "sub", "x"] 16).2 (by decide)

/-! ### Claims about the streaming handler -/

theorem liveReloadFrames_const (evs : List SSEIn) :
    ∀ f ∈ liveReloadFrames evs, f = formatSSE "sourcechange" "\x7b\x7d" := by
  induction evs with
  | nil => intro f hf; simp [liveReloadFrames] at hf
  | cons e rest ih =>
    cases e with
    | ctxDone => intro f hf; simp [liveReloadFrames] at hf
    | notifyRecv =>
      intro f hf
      rcases List.mem_cons.mp (by simpa [liveReloadFrames] using hf) with h | h
      · exact h
      · exact ih f h

/-- C9: every frame the streaming handler writes is exactly
`event: sourcechange\ndata: \x7b\x7d\n\n` (where `\x7b\x7d` is the two-byte
JSON object payload), and the handler's response carries the headers
`Connection: keep-alive`, `Content-Type: text/event-stream` and
`Cache-Control: no-store` with status 200, whatever headers were present
before it ran. -/
theorem sse_frames_headers (evs : List SSEIn) (f : String)
    (hf : f ∈ liveReloadFrames evs) (hs0 : List (String × String)) :
    f = "event: sourcechange\ndata: \x7b\x7d\n\n"
    ∧ getHeader "Connection" (liveReloadSetup hs0).1 = some "keep-alive"
    ∧ getHeader "Content-Type" (liveReloadSetup hs0).1 = some "text/event-stream"
    ∧ getHeader "Cache-Control" (liveReloadSetup hs0).1 = some "no-store"
    ∧ (liveReloadSetup hs0).2 = 200 := by
  refine ⟨liveReloadFrames_const evs f hf, ?_, ?_, ?_, rfl⟩
  · simp [getHeader, setHeader, liveReloadSetup, List.find?, List.filter]
  · simp [getHeader, setHeader, liveReloadSetup, List.find?, List.filter]
  · simp [getHeader, setHeader, liveReloadSetup, List.find?, List.filter]

/-- C9 witness: a single received notification writes one frame; headers are
set starting from an empty header map. -/
theorem sse_frames_headers_witness :
    "event: sourcechange\ndata: \x7b\x7d\n\n"
        = "event: sourcechange\ndata: \x7b\x7d\n\n"
    ∧ getHeader "Connection" (liveReloadSetup []).1 = some "keep-alive"
    ∧ getHeader "Content-Type" (liveReloadSetup []).1 = some "text/event-stream"
    ∧ getHeader "Cache-Control" (liveReloadSetup []).1 = some "no-store"
    ∧ (liveReloadSetup []).2 = 200 :=
  sse_frames_headers [SSEIn.notifyRecv] "event: sourcechange\ndata: \x7b\x7d\n\n"
    (by simp [liveReloadFrames, formatSSE]) []

end Serve
